import Mathlib
set_option maxRecDepth 8192

/-!
Verification of the domain-classification core of the
`disposable-email-domains` repository (TypeScript), via a shallow
embedding of its data structures and algorithms in Lean.

Components modelled from the source:
* `BloomFilter` — `src/client/email-validator.ts` (`Uint8Array` variant):
  double hashing (FNV-style ⊕ seeded polynomial) over JavaScript 32-bit
  integer arithmetic, byte-array bit storage, `add` / `contains` / `merge`.
* `TrieIndex` — suffix trie keyed by reversed domain labels
  (`splitDomainReverse`), `insert` / `search` / node counting.
* `DomainChecker` — both implementations found in the repository: the
  cached/optimized one (`src/client/domain-checker.ts`, whose pure
  computation is `performDisposableCheck`) and the simple one
  (`checkDisposableDomain` of the second class file).
* The classification facade `performEmailCheck` with the e-mail format
  validator, the in-memory LRU cache `MemoryCache`, and the request
  coalescing discipline of `CacheManager.get`.

JavaScript numbers are modelled exactly where the code relies on them:
`ToInt32` wrapping, `Math.imul`, `<<`, `^`, `%` (truncated remainder) and
`Math.abs` are reproduced over `Int`/`Nat`; strings are sequences of
UTF-16 code units (`Char.toNat` agrees on the ASCII domain data this
library processes).
-/

/-! ### JavaScript 32-bit integer arithmetic -/

/-- The unsigned 32-bit representative of an integer (`x mod 2^32`). -/
def wrap32 (x : Int) : Nat := (x % 4294967296).toNat

/-- JavaScript `ToInt32`: wrap to the signed 32-bit range. -/
def jsToInt32 (x : Int) : Int :=
  if wrap32 x < 2147483648 then (wrap32 x : Int) else (wrap32 x : Int) - 4294967296

/-- JavaScript `a ^ b`: bitwise xor after `ToInt32` of both operands. -/
def jsXor (a b : Int) : Int := jsToInt32 (Nat.xor (wrap32 a) (wrap32 b) : Nat)

/-- JavaScript `Math.imul(a, b)`: 32-bit wrapping multiplication. -/
def jsImul (a b : Int) : Int := jsToInt32 (jsToInt32 a * jsToInt32 b)

/-- JavaScript `a << 5` (left shift of the `ToInt32` value, keeping the
low 32 bits, read back as signed). -/
def jsShl5 (a : Int) : Int := jsToInt32 (jsToInt32 a * 32)

/-- The UTF-16 code units of a string (`charCodeAt`); exact for the
ASCII/BMP strings the library handles. -/
def strCodes (s : String) : List Nat := s.data.map Char.toNat

/-! ### Bloom filter (`email-validator.ts`, `Uint8Array` variant)

The state carries the fields of the TypeScript class that the
operations read: `size` (`m`), `numHashFunctions` (`k`), the hash seeds
and the byte array.  The constructor sizes `m`, `k` with `Math.log`
(floating point, out of scope here); the facts it guarantees about the
state — `0 < size`, `size ≤ 8 * bitArray.length` (`byteSize =
ceil(size/8)`), `hashSeeds.length = numHashFunctions` — appear as
explicit hypotheses where a theorem needs them. -/

structure BloomFilter where
  size : Nat
  numHashFunctions : Nat
  hashSeeds : List Int
  bitArray : List Nat

/-- One character step of `BloomFilter.hash`:
`hash1 ^= char; hash1 = Math.imul(hash1, 0x01000193)` and
`hash2 = (hash2 << 5) - hash2 + char; hash2 = hash2 & hash2`. -/
def hashStep (h : Int × Int) (c : Nat) : Int × Int :=
  (jsImul (jsXor h.1 c) 16777619,
   jsToInt32 (jsShl5 h.2 - h.2 + c))

/-- `BloomFilter.hash(str, seed)`: fold `hashStep` from
`(0x811c9dc5, seed)`, then `Math.abs((hash1 + hash2) % size)`. -/
def BloomFilter.hashBit (bf : BloomFilter) (item : String) (seed : Int) : Nat :=
  let h := (strCodes item).foldl hashStep (2166136261, seed)
  ((h.1 + h.2).tmod (bf.size : Int)).natAbs

/-- Set bit `bitIndex` of the byte array
(`bitArray[bitIndex / 8] |= 1 << (bitIndex % 8)`; an out-of-range write
on a `Uint8Array` is dropped, as is `List.set` out of range). -/
def setBit (arr : List Nat) (bitIndex : Nat) : List Nat :=
  arr.set (bitIndex / 8) (arr.getD (bitIndex / 8) 0 ||| 1 <<< (bitIndex % 8))

/-- Read bit `bitIndex` of the byte array
(`(bitArray[bitIndex / 8] & (1 << (bitIndex % 8))) !== 0`; an
out-of-range read yields `undefined`, whose test is `false`, matching
the `getD _ 0` default). -/
def getBit (arr : List Nat) (bitIndex : Nat) : Bool :=
  arr.getD (bitIndex / 8) 0 &&& 1 <<< (bitIndex % 8) != 0

/-- `BloomFilter.add`: set the `k` bits selected by the seeds. -/
def BloomFilter.add (bf : BloomFilter) (item : String) : BloomFilter :=
  let arr := (List.range bf.numHashFunctions).foldl
    (fun arr i => setBit arr (bf.hashBit item (bf.hashSeeds.getD i 0))) bf.bitArray
  { bf with bitArray := arr }

/-- `BloomFilter.contains`: `false` as soon as one selected bit is
unset, `true` when all are set. -/
def BloomFilter.contains (bf : BloomFilter) (item : String) : Bool :=
  (List.range bf.numHashFunctions).all fun i =>
    getBit bf.bitArray (bf.hashBit item (bf.hashSeeds.getD i 0))

/-- `BloomFilter.clear`: zero the byte array, never resizing. -/
def BloomFilter.clear (bf : BloomFilter) : BloomFilter :=
  { bf with bitArray := bf.bitArray.map (fun _ => 0) }

/-- Byte-wise `this.bitArray[i] |= other.bitArray[i]` over the
receiver's indices (a missing `other` byte reads as `undefined`, and
`x |= undefined` leaves `x`, matching the `headD 0` default). -/
def mergeBytes : List Nat → List Nat → List Nat
  | [], _ => []
  | a :: as, bs => (a ||| bs.headD 0) :: mergeBytes as (bs.drop 1)

/-- `BloomFilter.merge`: parameter check, then bitwise OR; the thrown
`Error("Cannot merge bloom filters with different parameters")` is
modelled as `Except.error`. -/
def BloomFilter.merge (a other : BloomFilter) : Except String BloomFilter :=
  if a.size ≠ other.size ∨ a.numHashFunctions ≠ other.numHashFunctions then
    .error "Cannot merge bloom filters with different parameters"
  else
    .ok { a with bitArray := mergeBytes a.bitArray other.bitArray }

/-! ### Domain splitting helpers

`jsSplit sep` is JavaScript `str.split(sep)` for a one-character
separator; `joinDots` is `parts.join(".")`.  `parentsAfterDots` lists
the suffix after each `.` occurrence, left to right — exactly the
parent domains produced by the `indexOf`/`slice` walk of
`domain-checker.ts`.  `tailJoins` lists `parts.slice(i).join(".")` for
`i = 1 .. parts.length - 1` — the walk of the simple checker. -/

def jsSplit (sep : Char) : List Char → List (List Char)
  | [] => [[]]
  | c :: rest =>
    match jsSplit sep rest with
    | [] => [[c]]
    | s :: ss => if c = sep then [] :: s :: ss else (c :: s) :: ss

def joinDots : List (List Char) → List Char
  | [] => []
  | [s] => s
  | s :: ss => s ++ '.' :: joinDots ss

def parentsAfterDots : List Char → List (List Char)
  | [] => []
  | c :: rest => if c = '.' then rest :: parentsAfterDots rest else parentsAfterDots rest

def tailJoins (cs : List Char) : List (List Char) :=
  (List.range ((jsSplit '.' cs).length - 1)).map
    (fun i => joinDots ((jsSplit '.' cs).drop (i + 1)))

/-- `TrieIndex.splitDomainReverse`: the labels of a domain from the TLD
inward.  The TypeScript walks `lastIndexOf "."` positions right to
left, pushing the slice after each dot and finally the head slice when
it is nonempty; with no dot at all it returns `[domain]` unchanged. -/
def sdrAux : List Char → List Char → List String
  | [], cur => if cur.isEmpty then [] else [String.mk cur]
  | c :: rest, cur => if c = '.' then String.mk cur :: sdrAux rest [] else sdrAux rest (c :: cur)

def splitDomainReverse (domain : String) : List String :=
  if domain.data.all (fun c => c ≠ '.') then [domain]
  else sdrAux domain.data.reverse []

/-! ### Suffix trie (`TrieIndex`)

Children are an association list in insertion order, mirroring the
JavaScript `Map` (`set` of a present key updates in place, of an
absent key appends; `get` searches by key). -/

inductive TrieNode where
  | mk (children : List (String × TrieNode)) (isEndOfDomain : Bool) (source : String)

def TrieNode.children : TrieNode → List (String × TrieNode)
  | .mk cs _ _ => cs

def TrieNode.isEndOfDomain : TrieNode → Bool
  | .mk _ e _ => e

def TrieNode.source : TrieNode → String
  | .mk _ _ s => s

/-- A fresh `new TrieNode()`. -/
def TrieNode.empty : TrieNode := .mk [] false ""

/-- `Map.get`. -/
def childGet : List (String × TrieNode) → String → Option TrieNode
  | [], _ => none
  | (k, n) :: rest, key => if k = key then some n else childGet rest key

/-- `Map.set`: replace in place when the key is present, append otherwise. -/
def childSet : List (String × TrieNode) → String → TrieNode → List (String × TrieNode)
  | [], key, v => [(key, v)]
  | (k, n) :: rest, key, v =>
    if k = key then (key, v) :: rest else (k, n) :: childSet rest key v

/-- The label walk of `TrieIndex.insert`: create missing children, then
mark the final node terminal with the given source. -/
def insertParts : TrieNode → List String → String → TrieNode
  | .mk cs _ _, [], src => .mk cs true src
  | .mk cs e s, p :: ps, src =>
    let child := (childGet cs p).getD TrieNode.empty
    .mk (childSet cs p (insertParts child ps src)) e s

def TrieIndex.insert (t : TrieNode) (domain source : String) : TrieNode :=
  insertParts t (splitDomainReverse domain) source

structure SearchResult where
  found : Bool
  matchType : String
  confidence : Nat
  source : String
deriving DecidableEq

/-- The label walk of `TrieIndex.search`, tracking `exactMatch`,
`subdomainMatch` and `matchSource`; a missing child breaks the loop. -/
def searchLoop : TrieNode → List String → Bool → Bool → String → Bool × Bool × String
  | _, [], ex, sub, src => (ex, sub, src)
  | node, p :: ps, ex, sub, src =>
    match childGet node.children p with
    | none => (ex, sub, src)
    | some child =>
      if child.isEndOfDomain then
        if ps.isEmpty then searchLoop child ps true sub child.source
        else searchLoop child ps ex true child.source
      else searchLoop child ps ex sub src

def TrieIndex.search (t : TrieNode) (domain : String) : SearchResult :=
  let r := searchLoop t (splitDomainReverse domain) false false ""
  if r.1 then ⟨true, "exact", 100, r.2.2⟩
  else if r.2.1 then ⟨true, "subdomain", 85, r.2.2⟩
  else ⟨false, "exact", 0, ""⟩

mutual
/-- `TrieIndex.getStats().nodeCount`: number of nodes reachable from
the root (the root included), by the recursive traversal. -/
def TrieNode.nodeCount : TrieNode → Nat
  | .mk cs _ _ => 1 + nodeCountChildren cs

def nodeCountChildren : List (String × TrieNode) → Nat
  | [] => 0
  | (_, n) :: rest => TrieNode.nodeCount n + nodeCountChildren rest
end

/-- Follow a label path from a node (specification accessor used to
state which node a domain's path reaches). -/
def TrieNode.findPath : TrieNode → List String → Option TrieNode
  | n, [] => some n
  | n, p :: ps =>
    match childGet n.children p with
    | none => none
    | some c => c.findPath ps

/-! ### Domain checker (both implementations)

`DomainChecker` holds the shared configuration of the two classes: the
three membership sets (JavaScript `Set`s of lower-cased strings,
modelled as lists queried with `contains`), the trusted domains, the
subdomain flag, the optional trie and Bloom filter, and the strategy.
`performDisposableCheck` and its `checkWith*` helpers are the pure
computation of the cached checker (`src/client/domain-checker.ts`);
`simpleCheckDisposableDomain` is `checkDisposableDomain` of the simple
checker class. -/

inductive Strategy where
  | trie | hash | bloom | hybrid
deriving DecidableEq

structure CheckResult where
  isMatch : Bool
  matchType : String
  confidence : Nat
  source : Option String
deriving DecidableEq

/-- `{ isMatch: false, matchType: "exact", confidence: 0 }`. -/
def noMatchResult : CheckResult := ⟨false, "exact", 0, none⟩

structure DomainChecker where
  disposableDomainsSet : List String
  allowlistSet : List String
  blacklistSet : List String
  trustedDomainsSet : List String
  enableSubdomainChecking : Bool
  domainTrie : Option TrieNode
  bloomFilter : Option BloomFilter
  indexingStrategy : Strategy

/-- The `while (dotIndex !== -1)` parent-domain walk of
`checkSubdomainAllowlist`. -/
def DomainChecker.checkSubdomainAllowlist (dc : DomainChecker) (domain : String) : Bool :=
  (parentsAfterDots domain.data).any fun p =>
    dc.allowlistSet.contains (String.mk p) || dc.trustedDomainsSet.contains (String.mk p)

/-- `DomainChecker.checkAllowlist` (cached checker): direct lookup in
the allow and trusted sets, then the subdomain walk when enabled. -/
def DomainChecker.checkAllowlist (dc : DomainChecker) (domain : String) : Bool :=
  if dc.allowlistSet.contains domain || dc.trustedDomainsSet.contains domain then true
  else if dc.enableSubdomainChecking then dc.checkSubdomainAllowlist domain
  else false

/-- `DomainChecker.checkBlacklist` (cached checker): exact hit at
confidence 100, else the parent walk at confidence 90 when enabled. -/
def DomainChecker.checkBlacklist (dc : DomainChecker) (domain : String) : CheckResult :=
  if dc.blacklistSet.contains domain then ⟨true, "exact", 100, none⟩
  else if dc.enableSubdomainChecking
      && (parentsAfterDots domain.data).any (fun p => dc.blacklistSet.contains (String.mk p)) then
    ⟨true, "subdomain", 90, none⟩
  else noMatchResult

/-- `checkWithHash`: the manual parent-domain walk over the disposable
set (subdomain matches at confidence 85, `source = "hash"`). -/
def DomainChecker.checkWithHash (dc : DomainChecker) (domain : String) : CheckResult :=
  if !dc.enableSubdomainChecking then noMatchResult
  else if (parentsAfterDots domain.data).any
      (fun p => dc.disposableDomainsSet.contains (String.mk p)) then
    ⟨true, "subdomain", 85, some "hash"⟩
  else noMatchResult

/-- `checkWithTrie`: trie search, accepted only when found with source
`"disposable"`, reported with `source = "trie"`. -/
def DomainChecker.checkWithTrie (dc : DomainChecker) (domain : String) : CheckResult :=
  match dc.domainTrie with
  | none => noMatchResult
  | some t =>
    if !dc.enableSubdomainChecking then noMatchResult
    else
      let r := TrieIndex.search t domain
      if r.found && (r.source == "disposable") then ⟨true, r.matchType, r.confidence, some "trie"⟩
      else noMatchResult

/-- `checkWithBloom`: the Bloom filter alone cannot express subdomain
matches, so fall back to the hash walk when subdomain checking is on. -/
def DomainChecker.checkWithBloom (dc : DomainChecker) (domain : String) : CheckResult :=
  match dc.bloomFilter with
  | none => noMatchResult
  | some _ => if dc.enableSubdomainChecking then dc.checkWithHash domain else noMatchResult

/-- `checkWithHybrid`: trie first (when present and subdomain checking
is on), hash walk as the fallback. -/
def DomainChecker.checkWithHybrid (dc : DomainChecker) (domain : String) : CheckResult :=
  let viaTrie :=
    if dc.domainTrie.isSome && dc.enableSubdomainChecking then dc.checkWithTrie domain
    else noMatchResult
  if viaTrie.isMatch then viaTrie else dc.checkWithHash domain

/-- The Bloom pre-filter gate shared by both checkers:
`this.bloomFilter && !this.bloomFilter.contains(domain)`. -/
def DomainChecker.bloomRejects (dc : DomainChecker) (domain : String) : Bool :=
  match dc.bloomFilter with
  | some bf => !bf.contains domain
  | none => false

/-- `performDisposableCheck` (cached checker): Bloom gate, exact hit in
the raw set (confidence 100, `source = "database"`), then the
strategy-selected helper. -/
def DomainChecker.performDisposableCheck (dc : DomainChecker) (domain : String) : CheckResult :=
  if dc.bloomRejects domain then noMatchResult
  else if dc.disposableDomainsSet.contains domain then ⟨true, "exact", 100, some "database"⟩
  else
    match dc.indexingStrategy with
    | .trie => dc.checkWithTrie domain
    | .bloom => dc.checkWithBloom domain
    | .hybrid => dc.checkWithHybrid domain
    | .hash => dc.checkWithHash domain

/-- `checkDisposableDomain` of the simple checker class: Bloom gate and
exact hit as above; then one trie attempt when subdomain checking is on,
the strategy is not `hash` and a trie exists (`source = "trie-index"`);
then the `split`/`join` parent walk only when the strategy is `hash`
(`source = "subdomain-check"`). -/
def DomainChecker.simpleCheckDisposableDomain (dc : DomainChecker) (domain : String) :
    CheckResult :=
  if dc.bloomRejects domain then noMatchResult
  else if dc.disposableDomainsSet.contains domain then ⟨true, "exact", 100, some "database"⟩
  else
    let trieStep : Option CheckResult :=
      if dc.enableSubdomainChecking && !(dc.indexingStrategy == .hash) then
        match dc.domainTrie with
        | some t =>
          let r := TrieIndex.search t domain
          if r.found && (r.source == "disposable") then
            some ⟨true, r.matchType, r.confidence, some "trie-index"⟩
          else none
        | none => none
      else none
    match trieStep with
    | some r => r
    | none =>
      if dc.enableSubdomainChecking && (dc.indexingStrategy == .hash) then
        if (tailJoins domain.data).any
            (fun p => dc.disposableDomainsSet.contains (String.mk p)) then
          ⟨true, "subdomain", 85, some "subdomain-check"⟩
        else noMatchResult
      else noMatchResult

/-- A Bloom filter as the constructor produces it for
`expectedElements = 1, falsePositiveRate = 0.01`: `m = 10`, `k = 7`,
seeds `i * 0x9e3779b9`, two zeroed bytes. -/
def bfW : BloomFilter :=
  { size := 10, numHashFunctions := 7,
    hashSeeds := [0, 2654435769, 5308871538, 7963307307, 10617743076, 13272178845, 15926614614],
    bitArray := [0, 0] }

/-! ### Exact-hit precedence in the domain checker (C3) -/

/-- An empty Bloom filter with the constructor's parameters for
`expectedElements = 1, falsePositiveRate = 0.01` (`m = 10`, `k = 7`,
seeds `i * 0x9e3779b9`, `ceil(10/8) = 2` zeroed bytes): a filter built
over a corpus that did not include the probed domain. -/
def bfEmpty : BloomFilter :=
  { size := 10, numHashFunctions := 7,
    hashSeeds := [0, 2654435769, 5308871538, 7963307307, 10617743076, 13272178845, 15926614614],
    bitArray := [0, 0] }

def dcBloomGate : DomainChecker :=
  { disposableDomainsSet := ["mailinator.com"], allowlistSet := [], blacklistSet := [],
    trustedDomainsSet := [], enableSubdomainChecking := true, domainTrie := none,
    bloomFilter := some bfEmpty, indexingStrategy := .hybrid }

def dcNoBloom : DomainChecker :=
  { disposableDomainsSet := ["mailinator.com"], allowlistSet := [], blacklistSet := [],
    trustedDomainsSet := [], enableSubdomainChecking := true, domainTrie := none,
    bloomFilter := none, indexingStrategy := .hybrid }

/-- C10 counterexample: under the `hybrid` strategy with no trie
configured, the cached checker falls back to the hash parent walk and
matches `a.b.com` against disposable `b.com`, while the simple checker
(which runs the hash walk only under the `hash` strategy) reports no
match — the two implementations are not equivalent. -/
def dcHybridNoTrie : DomainChecker :=
  { disposableDomainsSet := ["b.com"], allowlistSet := [], blacklistSet := [],
    trustedDomainsSet := [], enableSubdomainChecking := true, domainTrie := none,
    bloomFilter := none, indexingStrategy := .hybrid }

def dcHashPair : DomainChecker :=
  { disposableDomainsSet := ["b.com"], allowlistSet := [], blacklistSet := [],
    trustedDomainsSet := [], enableSubdomainChecking := true, domainTrie := none,
    bloomFilter := none, indexingStrategy := .hash }

/-! ### E-mail format validation (`EmailValidator`, first class of
`email-validator.ts`)

The validation regexes are compiled to executable predicates.  The
non-strict e-mail regex anchors `local@domain` where the local part is
one or more characters of a fixed class (which excludes `@`, so the
string must contain exactly one `@`) and the domain is `label`
(`.` `label`)`*` with `label = [a-zA-Z0-9]([a-zA-Z0-9-]{0,61}[a-zA-Z0-9])?`,
i.e. 1–63 characters, alphanumeric at both ends, alphanumeric or `-`
inside. -/

def isAlnum (c : Char) : Bool :=
  (('a' ≤ c && c ≤ 'z') || ('A' ≤ c && c ≤ 'Z') || ('0' ≤ c && c ≤ '9'))

def isLabelChar (c : Char) : Bool := isAlnum c || c = '-'

/-- The local-part character class
`[a-zA-Z0-9.!#$%&'*+/=?^_`{|}~-]` of the non-strict regex. -/
def isLocalChar (c : Char) : Bool :=
  isAlnum c ||
    ['.', '!', '#', '$', '%', '&', '\x27', '*', '+', '/', '=',
      '?', '^', '_', '\x60', '\x7b', '|', '\x7d', '~', '-'].contains c

/-- One domain label of the regex: nonempty, at most 63 characters,
alphanumeric first and last, `[a-zA-Z0-9-]` in between. -/
def validLabel : List Char → Bool
  | [] => false
  | c :: rest =>
    isAlnum c && isAlnum (rest.getLastD c) && rest.all isLabelChar && rest.length + 1 ≤ 63

/-- `EMAIL_REGEX.test(email)` (non-strict variant). -/
def emailRegexTest (email : String) : Bool :=
  match jsSplit '@' email.data with
  | [lp, dom] => !lp.isEmpty && lp.all isLocalChar && (jsSplit '.' dom).all validLabel
  | _ => false

/-- `EmailValidator.validateEmailFormat` (first class): regex test, then
the 254/64/253 length checks, pushing one error message per failing
branch into the result. -/
def validateEmailFormat (email : String) : Bool × List String :=
  if !emailRegexTest email then (false, ["Invalid email format"])
  else if email.length > 254 then (false, ["Email address too long (max 254 characters)"])
  else
    let parts := jsSplit '@' email.data
    if (parts.headD []).length > 64 then (false, ["Local part too long (max 64 characters)"])
    else if ((parts.drop 1).headD []).length > 253 then
      (false, ["Domain too long (max 253 characters)"])
    else (true, [])

/-- JavaScript `toLowerCase`, character by character (agrees with the
source on the ASCII data this library handles). -/
def jsToLower (s : String) : String := String.mk (s.data.map Char.toLower)

/-- `EmailValidator.parseEmail` (first class):
`email.toLowerCase().split("@")` destructured into local part and
domain. -/
def parseEmail (email : String) : String × String :=
  let parts := jsSplit '@' (jsToLower email).data
  (String.mk (parts.headD []), String.mk ((parts.drop 1).headD []))

/-! ### Classification facade (`performEmailCheck`)

`EmailValidationResult` carries the fields of the TypeScript result
that the checks compute (`validationTime`, a wall-clock measurement, is
outside the model).  The pattern analyzer (`analyzePatterns`) and the
MX-record probe, invoked only after the cache, allow-list, block-list
and disposable steps, are passed as function parameters: the claims
about this function concern paths that return before or independently
of them. -/

structure EmailValidationResult where
  email : String
  isValid : Bool
  isDisposable : Bool
  isAllowed : Bool
  isBlacklisted : Bool
  domain : String
  localPart : String
  matchType : String
  confidence : Nat
  source : Option String
  errors : List String
  warnings : List String

structure FacadeConfig where
  checker : DomainChecker
  enablePatternMatching : Bool
  checkMxRecord : Bool

/-- `performEmailCheck`: format validation (on failure return the
all-false result carrying the validation errors), parse, allow-list
short-circuit at confidence 100, blacklist merge, disposable merge
(confidence is a running max), optional pattern analysis (upgrade to
disposable at score ≥ 80), optional MX warning at confidence ≥ 60. -/
def performEmailCheck (cfg : FacadeConfig)
    (analyze : String → String → String → Nat × List String)
    (hasMx : String → Bool) (email : String) : EmailValidationResult :=
  let v := validateEmailFormat email
  let base : EmailValidationResult :=
    { email := jsToLower email, isValid := false, isDisposable := false, isAllowed := false,
      isBlacklisted := false, domain := "", localPart := "", matchType := "none",
      confidence := 0, source := none, errors := v.2, warnings := [] }
  if !v.1 then base
  else
    let p := parseEmail email
    let r1 := { base with localPart := p.1, domain := p.2, isValid := true }
    if cfg.checker.checkAllowlist p.2 then
      { r1 with isAllowed := true, matchType := "exact", confidence := 100 }
    else
      let bl := cfg.checker.checkBlacklist p.2
      let r2 :=
        if bl.isMatch then
          { r1 with isBlacklisted := true, matchType := bl.matchType, confidence := bl.confidence }
        else r1
      let dr := cfg.checker.performDisposableCheck p.2
      let r3 :=
        if dr.isMatch then
          { r2 with
            isDisposable := true
            matchType := dr.matchType
            confidence := max r2.confidence dr.confidence
            source := dr.source }
        else r2
      let r4 :=
        if cfg.enablePatternMatching then
          let pa := analyze email p.1 p.2
          if pa.1 > 0 then
            let ru := { r3 with warnings := pa.2, confidence := max r3.confidence pa.1 }
            if pa.1 ≥ 80 then { ru with isDisposable := true, matchType := "pattern" } else ru
          else r3
        else r3
      if cfg.checkMxRecord then
        if hasMx p.2 then r4
        else
          { r4 with
            warnings := r4.warnings ++ ["No MX record found for domain"]
            confidence := max r4.confidence 60 }
      else r4

/-! ### In-memory LRU cache (`MemoryCache`)

The JavaScript `Map` is an insertion-ordered association list; `get`
re-inserts at the tail (recency), `set` at capacity evicts the first
key of the iteration order (the `!oldestKey` guard also fires on the
falsy empty-string key).  Time is an explicit `now` parameter. -/

structure CacheEntry where
  result : EmailValidationResult
  timestamp : Nat
  hitCount : Nat
  ttl : Nat

/-- `Map.set`: update in place when present, append otherwise. -/
def mapSet (m : List (String × CacheEntry)) (key : String) (v : CacheEntry) :
    List (String × CacheEntry) :=
  match m with
  | [] => [(key, v)]
  | (k, e) :: rest => if k = key then (key, v) :: rest else (k, e) :: mapSet rest key v

structure MemoryCache where
  entries : List (String × CacheEntry)
  maxSize : Nat
  defaultTtl : Nat

/-- `MemoryCache.set`: evict the oldest key when at capacity, then
insert the entry with `timestamp = now`, `hitCount = 0` and the given
or default TTL. -/
def MemoryCache.set (c : MemoryCache) (now : Nat) (key : String)
    (result : EmailValidationResult) (ttl : Option Nat) : MemoryCache :=
  let entry : CacheEntry :=
    { result := result, timestamp := now, hitCount := 0, ttl := ttl.getD c.defaultTtl }
  if c.entries.length ≥ c.maxSize then
    match c.entries.head? with
    | none => c
    | some (k0, _) =>
      if k0 = "" then c
      else { c with entries := mapSet (c.entries.filter (fun p => p.1 ≠ k0)) key entry }
  else { c with entries := mapSet c.entries key entry }

/-- `MemoryCache.has`: plain key membership (no TTL check). -/
def MemoryCache.has (c : MemoryCache) (key : String) : Bool :=
  c.entries.any (fun p => p.1 == key)

/-! ### Request coalescing (`CacheManager.get`)

`CacheManager.get` keeps a `pendingOperations` map from key to the
in-flight promise; a `get` that finds a pending entry returns that same
promise, otherwise it starts `performGet` (one backing-store call),
registers it, and removes it in `finally`.  Modelled as a transition
system: `getStart` is the synchronous prefix of `get` (up to the
suspension point), `getComplete` the `finally` cleanup; `backingCalls`
records every `performGet` invocation; the returned `Nat` is the
promise identity a caller awaits — callers awaiting the same promise
observe the same outcome. -/

structure PendingState where
  pending : List (String × Nat)
  nextId : Nat
  backingCalls : List (String × Nat)

def lookupKey (m : List (String × Nat)) (k : String) : Option Nat :=
  match m with
  | [] => none
  | (k0, v) :: rest => if k0 = k then some v else lookupKey rest k

def getStart (s : PendingState) (k : String) : PendingState × Nat :=
  match lookupKey s.pending k with
  | some pid => (s, pid)
  | none =>
    ({ pending := (k, s.nextId) :: s.pending,
       nextId := s.nextId + 1,
       backingCalls := (k, s.nextId) :: s.backingCalls }, s.nextId)

/-- The `finally { pendingOperations.delete(email) }` cleanup. -/
def getComplete (s : PendingState) (k : String) : PendingState :=
  { s with pending := s.pending.filter (fun p => p.1 ≠ k) }

/-- `n` concurrent `get` calls for the same key, all issued before any
completion: the state after, and the promise each caller awaits. -/
def runStarts (s : PendingState) (k : String) : Nat → PendingState × List Nat
  | 0 => (s, [])
  | n + 1 =>
    let r1 := getStart s k
    let r2 := runStarts r1.1 k n
    (r2.1, r1.2 :: r2.2)

def countKey (l : List (String × Nat)) (k : String) : Nat :=
  (l.filter (fun p => p.1 = k)).length

def bfM1 : BloomFilter :=
  { size := 16, numHashFunctions := 2, hashSeeds := [0, 2654435769], bitArray := [5, 0] }

def bfM2 : BloomFilter :=
  { size := 16, numHashFunctions := 2, hashSeeds := [0, 2654435769], bitArray := [130, 1] }

/-! ### LRU eviction (C6) -/

def dummyResult : EmailValidationResult :=
  { email := "", isValid := false, isDisposable := false, isAllowed := false,
    isBlacklisted := false, domain := "", localPart := "", matchType := "none",
    confidence := 0, source := none, errors := [], warnings := [] }

def mcTwo : MemoryCache := { entries := [], maxSize := 2, defaultTtl := 86400000 }

def psEmpty : PendingState := { pending := [], nextId := 0, backingCalls := [] }

def dcAllowPair : DomainChecker :=
  { disposableDomainsSet := ["both.com"], allowlistSet := ["both.com"], blacklistSet := [],
    trustedDomainsSet := [], enableSubdomainChecking := true, domainTrie := none,
    bloomFilter := none, indexingStrategy := .hybrid }

def cfgAllowPair : FacadeConfig :=
  { checker := dcAllowPair, enablePatternMatching := true, checkMxRecord := false }

/-! ### Bit-level lemmas for the Bloom filter -/

theorem natAbs_tmod (a b : Int) : (a.tmod b).natAbs = a.natAbs % b.natAbs := by
  cases a <;> cases b <;> first
    | rfl
    | (simp only [Int.tmod, Int.natAbs_neg]; rfl)

theorem BloomFilter.hashBit_lt (bf : BloomFilter) (item : String) (seed : Int)
    (h : 0 < bf.size) : bf.hashBit item seed < bf.size := by
  unfold BloomFilter.hashBit
  rw [natAbs_tmod]
  simpa using Nat.mod_lt _ h

theorem getD_set_self {l : List Nat} {n v : Nat} (h : n < l.length) :
    (l.set n v).getD n 0 = v := by
  simp [List.getD_eq_getElem?_getD, List.getElem?_set_self h]

theorem getD_set_ne {l : List Nat} {m n v : Nat} (h : n ≠ m) :
    (l.set n v).getD m 0 = l.getD m 0 := by
  simp [List.getD_eq_getElem?_getD, List.getElem?_set_ne h]

theorem getBit_eq_testBit (arr : List Nat) (i : Nat) :
    getBit arr i = (arr.getD (i / 8) 0).testBit (i % 8) := by
  unfold getBit
  rw [Nat.shiftLeft_eq, one_mul, Nat.and_two_pow]
  cases h : (arr.getD (i / 8) 0).testBit (i % 8) <;> simp [h]

theorem length_setBit (arr : List Nat) (i : Nat) : (setBit arr i).length = arr.length :=
  List.length_set ..

theorem getBit_setBit_self {arr : List Nat} {i : Nat} (h : i < 8 * arr.length) :
    getBit (setBit arr i) i = true := by
  have hb : i / 8 < arr.length := by
    rw [Nat.div_lt_iff_lt_mul (by norm_num)]
    omega
  unfold setBit
  rw [getBit_eq_testBit, getD_set_self hb, Nat.shiftLeft_eq, one_mul, Nat.testBit_lor]
  simp [Nat.testBit_two_pow_self]

theorem getBit_setBit_mono {arr : List Nat} {i j : Nat} (h : getBit arr i = true) :
    getBit (setBit arr j) i = true := by
  by_cases hb : j / 8 = i / 8
  · by_cases hlen : j / 8 < arr.length
    · rw [getBit_eq_testBit] at h ⊢
      unfold setBit
      rw [← hb] at h ⊢
      rw [getD_set_self hlen, Nat.shiftLeft_eq, one_mul, Nat.testBit_lor, h]
      simp
    · unfold setBit
      rw [List.set_eq_of_length_le (Nat.le_of_not_lt hlen)]
      exact h
  · rw [getBit_eq_testBit] at h ⊢
    unfold setBit
    rw [getD_set_ne hb]
    exact h

theorem length_foldl_setBit (f : Nat → Nat) (is : List Nat) (arr : List Nat) :
    (is.foldl (fun a j => setBit a (f j)) arr).length = arr.length := by
  induction is generalizing arr with
  | nil => rfl
  | cons j js ih => rw [List.foldl_cons, ih, length_setBit]

theorem getBit_foldl_setBit_mono (f : Nat → Nat) (is : List Nat) {arr : List Nat} {i : Nat}
    (h : getBit arr i = true) :
    getBit (is.foldl (fun a j => setBit a (f j)) arr) i = true := by
  induction is generalizing arr with
  | nil => exact h
  | cons j js ih => exact ih (getBit_setBit_mono h)

theorem getBit_foldl_setBit_covers (f : Nat → Nat) (is : List Nat) {arr : List Nat} {j : Nat}
    (hmem : j ∈ is) (hlt : f j < 8 * arr.length) :
    getBit (is.foldl (fun a k => setBit a (f k)) arr) (f j) = true := by
  induction is generalizing arr with
  | nil => cases hmem
  | cons k ks ih =>
    rw [List.foldl_cons]
    rcases List.mem_cons.mp hmem with h1 | h1
    · subst h1
      exact getBit_foldl_setBit_mono f ks (getBit_setBit_self hlt)
    · exact ih h1 (by rw [length_setBit]; exact hlt)

theorem BloomFilter.contains_add_self (bf : BloomFilter) (x : String)
    (hpos : 0 < bf.size) (hlen : bf.size ≤ 8 * bf.bitArray.length) :
    (bf.add x).contains x = true := by
  show (List.range bf.numHashFunctions).all
      (fun i => getBit ((List.range bf.numHashFunctions).foldl
        (fun arr i => setBit arr (bf.hashBit x (bf.hashSeeds.getD i 0))) bf.bitArray)
        (bf.hashBit x (bf.hashSeeds.getD i 0))) = true
  rw [List.all_eq_true]
  intro i hi
  exact getBit_foldl_setBit_covers (fun i => bf.hashBit x (bf.hashSeeds.getD i 0)) _ hi
    (Nat.lt_of_lt_of_le (bf.hashBit_lt x _ hpos) hlen)

theorem BloomFilter.contains_mono_add (bf : BloomFilter) (x y : String)
    (h : bf.contains x = true) : (bf.add y).contains x = true := by
  unfold BloomFilter.contains at h
  rw [List.all_eq_true] at h
  show (List.range bf.numHashFunctions).all
      (fun i => getBit ((List.range bf.numHashFunctions).foldl
        (fun arr i => setBit arr (bf.hashBit y (bf.hashSeeds.getD i 0))) bf.bitArray)
        (bf.hashBit x (bf.hashSeeds.getD i 0))) = true
  rw [List.all_eq_true]
  intro i hi
  exact getBit_foldl_setBit_mono (fun i => bf.hashBit y (bf.hashSeeds.getD i 0)) _ (h i hi)

theorem BloomFilter.contains_foldl_adds (ys : List String) (bf : BloomFilter) (x : String)
    (h : bf.contains x = true) : (ys.foldl BloomFilter.add bf).contains x = true := by
  induction ys generalizing bf with
  | nil => exact h
  | cons y ys ih => exact ih _ (bf.contains_mono_add x y h)

/-- C1: after `add x`, `contains x` is `true` and stays `true` under any
further sequence of `add` calls (no `clear` in between): the Bloom filter
has no false negatives.  The two hypotheses are the constructor
invariants (`size ≥ 1`, `byteSize = ceil(size/8)` bytes allocated). -/
theorem bloom_no_false_negatives (bf : BloomFilter) (x : String) (ys : List String)
    (hpos : 0 < bf.size) (hlen : bf.size ≤ 8 * bf.bitArray.length) :
    (ys.foldl BloomFilter.add (bf.add x)).contains x = true :=
  BloomFilter.contains_foldl_adds ys _ x (bf.contains_add_self x hpos hlen)

theorem bloom_no_false_negatives_witness :
    0 < bfW.size ∧ bfW.size ≤ 8 * bfW.bitArray.length ∧
      ((["x.com", "y.org"] : List String).foldl BloomFilter.add
        (bfW.add "mailinator.com")).contains "mailinator.com" = true :=
  ⟨by decide, by decide,
    bloom_no_false_negatives bfW "mailinator.com" ["x.com", "y.org"] (by decide) (by decide)⟩

/-! ### Trie theorems -/

/-- C2: on an empty trie, after `insert("mailinator.com", "disposable")`,
`search("mailinator.com")` is an exact match at confidence 100,
`search("x.mailinator.com")` a subdomain match at confidence 85, and
`search("notmailinator.com")` no match at confidence 0. -/
theorem trie_exact_vs_subdomain :
    TrieIndex.search (TrieIndex.insert TrieNode.empty "mailinator.com" "disposable")
        "mailinator.com" = ⟨true, "exact", 100, "disposable"⟩ ∧
    TrieIndex.search (TrieIndex.insert TrieNode.empty "mailinator.com" "disposable")
        "x.mailinator.com" = ⟨true, "subdomain", 85, "disposable"⟩ ∧
    TrieIndex.search (TrieIndex.insert TrieNode.empty "mailinator.com" "disposable")
        "notmailinator.com" = ⟨false, "exact", 0, ""⟩ := by
  decide

theorem childGet_childSet_self (cs : List (String × TrieNode)) (k : String) (v : TrieNode) :
    childGet (childSet cs k v) k = some v := by
  induction cs with
  | nil => simp [childSet, childGet]
  | cons p rest ih =>
    obtain ⟨k0, n0⟩ := p
    by_cases h : k0 = k
    · subst h
      simp [childSet, childGet]
    · simp [childSet, childGet, h, ih]

theorem childSet_childSet (cs : List (String × TrieNode)) (k : String) (v1 v2 : TrieNode) :
    childSet (childSet cs k v1) k v2 = childSet cs k v2 := by
  induction cs with
  | nil => simp [childSet]
  | cons p rest ih =>
    obtain ⟨k0, n0⟩ := p
    by_cases h : k0 = k
    · subst h
      simp [childSet]
    · simp [childSet, h, ih]

theorem insertParts_insertParts (t : TrieNode) (ps : List String) (s1 s2 : String) :
    insertParts (insertParts t ps s1) ps s2 = insertParts t ps s2 := by
  induction ps generalizing t with
  | nil => cases t; simp [insertParts]
  | cons p ps ih =>
    cases t with
    | mk cs e s =>
      simp only [insertParts]
      rw [childGet_childSet_self]
      simp only [Option.getD_some]
      rw [ih, childSet_childSet]

theorem nodeCountChildren_childSet (cs : List (String × TrieNode)) (k : String)
    (v1 v2 : TrieNode) (h : v1.nodeCount = v2.nodeCount) :
    nodeCountChildren (childSet cs k v1) = nodeCountChildren (childSet cs k v2) := by
  induction cs with
  | nil => simp [childSet, nodeCountChildren, h]
  | cons p rest ih =>
    obtain ⟨k0, n0⟩ := p
    by_cases hk : k0 = k
    · subst hk
      simp [childSet, nodeCountChildren, h]
    · simp [childSet, nodeCountChildren, hk, ih]

theorem nodeCount_insertParts_source (t : TrieNode) (ps : List String) (s1 s2 : String) :
    (insertParts t ps s1).nodeCount = (insertParts t ps s2).nodeCount := by
  induction ps generalizing t with
  | nil => cases t; simp [insertParts, TrieNode.nodeCount]
  | cons p ps ih =>
    cases t with
    | mk cs e s =>
      simp only [insertParts, TrieNode.nodeCount]
      exact congrArg (1 + ·) (nodeCountChildren_childSet cs p _ _ (ih _))

theorem findPath_insertParts (t : TrieNode) (ps : List String) (s : String) :
    ∃ n, (insertParts t ps s).findPath ps = some n ∧
      n.isEndOfDomain = true ∧ n.source = s := by
  induction ps generalizing t with
  | nil =>
    cases t with
    | mk cs e s0 => exact ⟨.mk cs true s, rfl, rfl, rfl⟩
  | cons p ps ih =>
    cases t with
    | mk cs e s0 =>
      obtain ⟨n, hn, he, hs⟩ := ih ((childGet cs p).getD TrieNode.empty)
      refine ⟨n, ?_, he, hs⟩
      simp only [insertParts, TrieNode.findPath, TrieNode.children]
      rw [childGet_childSet_self]
      exact hn

/-- C8: inserting the same domain twice (sources `s1` then `s2`) leaves
the node count unchanged relative to the first insert, and the (unique)
node at the domain's label path is terminal with source `s2` — the
second insert overwrites the source of the one terminal node. -/
theorem trie_insert_idempotent (t : TrieNode) (d s1 s2 : String) :
    (TrieIndex.insert (TrieIndex.insert t d s1) d s2).nodeCount
        = (TrieIndex.insert t d s1).nodeCount ∧
    ∃ n, (TrieIndex.insert (TrieIndex.insert t d s1) d s2).findPath (splitDomainReverse d)
        = some n ∧ n.isEndOfDomain = true ∧ n.source = s2 := by
  unfold TrieIndex.insert
  constructor
  · rw [insertParts_insertParts]
    exact nodeCount_insertParts_source t _ s2 s1
  · rw [insertParts_insertParts]
    exact findPath_insertParts t _ s2

/-- C3 counterexample: with a Bloom filter configured that does not
contain the domain, the Bloom pre-filter rejects before the exact set
is consulted, so a domain that is a member of the raw disposable set
yields `isMatch = false` — the exact hit does not always win for every
configuration with a Bloom filter. -/
theorem exact_hit_bloom_gate_counterexample :
    dcBloomGate.disposableDomainsSet.contains "mailinator.com" = true ∧
      (dcBloomGate.performDisposableCheck "mailinator.com").isMatch = false := by
  decide

/-- C3 amended: for every configuration and every domain in the raw
disposable set, provided the Bloom filter (when one is configured)
contains the domain — which holds for filters built from the disposable
corpus, by C1 — `performDisposableCheck` returns the exact match at
confidence 100 with source `"database"`, regardless of strategy. -/
theorem exact_disposable_hit_wins (dc : DomainChecker) (domain : String)
    (hmem : dc.disposableDomainsSet.contains domain = true)
    (hbloom : ∀ bf, dc.bloomFilter = some bf → bf.contains domain = true) :
    dc.performDisposableCheck domain = ⟨true, "exact", 100, some "database"⟩ := by
  have hmem2 : domain ∈ dc.disposableDomainsSet := by simpa using hmem
  have hrej : dc.bloomRejects domain = false := by
    unfold DomainChecker.bloomRejects
    cases hb : dc.bloomFilter with
    | none => rfl
    | some bf =>
      show (!bf.contains domain) = false
      rw [hbloom bf hb]
      rfl
  simp [DomainChecker.performDisposableCheck, hrej, hmem2]

theorem exact_disposable_hit_wins_witness :
    DomainChecker.performDisposableCheck dcNoBloom "mailinator.com"
      = ⟨true, "exact", 100, some "database"⟩ :=
  exact_disposable_hit_wins dcNoBloom "mailinator.com" (by decide)
    (fun bf h => Option.noConfusion h)

/-! ### The two parent-domain walks coincide (C10) -/

theorem jsSplit_ne_nil (sep : Char) (cs : List Char) : jsSplit sep cs ≠ [] := by
  cases cs with
  | nil => simp [jsSplit]
  | cons c rest =>
    simp only [jsSplit]
    cases h : jsSplit sep rest with
    | nil => simp
    | cons s ss => by_cases hc : c = sep <;> simp [hc]

theorem joinDots_cons_cons (s t : List Char) (ss : List (List Char)) :
    joinDots (s :: t :: ss) = s ++ '.' :: joinDots (t :: ss) := rfl

theorem joinDots_jsSplitDot (cs : List Char) : joinDots (jsSplit '.' cs) = cs := by
  induction cs with
  | nil => rfl
  | cons c rest ih =>
    cases h : jsSplit '.' rest with
    | nil => exact absurd h (jsSplit_ne_nil '.' rest)
    | cons s ss =>
      rw [h] at ih
      by_cases hc : c = '.'
      · subst hc
        have hsplit : jsSplit '.' ('.' :: rest) = [] :: s :: ss := by simp [jsSplit, h]
        rw [hsplit, joinDots_cons_cons, ih]
        rfl
      · have hsplit : jsSplit '.' (c :: rest) = (c :: s) :: ss := by simp [jsSplit, h, hc]
        rw [hsplit]
        cases ss with
        | nil =>
          show c :: s = c :: rest
          rw [show joinDots [s] = s from rfl] at ih
          rw [ih]
        | cons t ts =>
          rw [joinDots_cons_cons] at ih
          rw [joinDots_cons_cons, List.cons_append, ih]

theorem tailJoins_eq_parentsAfterDots (cs : List Char) :
    tailJoins cs = parentsAfterDots cs := by
  induction cs with
  | nil => rfl
  | cons c rest ih =>
    unfold tailJoins at ih ⊢
    cases h : jsSplit '.' rest with
    | nil => exact absurd h (jsSplit_ne_nil '.' rest)
    | cons s ss =>
      rw [h] at ih
      by_cases hc : c = '.'
      · subst hc
        have hsplit : jsSplit '.' ('.' :: rest) = [] :: s :: ss := by simp [jsSplit, h]
        have hpar : parentsAfterDots ('.' :: rest) = rest :: parentsAfterDots rest := by
          simp [parentsAfterDots]
        rw [hsplit, hpar]
        simp only [List.length_cons, Nat.add_sub_cancel, List.drop_succ_cons] at ih ⊢
        rw [List.range_succ_eq_map, List.map_cons, List.map_map]
        congr 1
        rw [List.drop_zero, ← h, joinDots_jsSplitDot]
      · have hsplit : jsSplit '.' (c :: rest) = (c :: s) :: ss := by simp [jsSplit, h, hc]
        have hpar : parentsAfterDots (c :: rest) = parentsAfterDots rest := by
          simp [parentsAfterDots, hc]
        rw [hsplit, hpar]
        simp only [List.length_cons, Nat.add_sub_cancel, List.drop_succ_cons] at ih ⊢
        exact ih

theorem checkers_divergence_counterexample :
    (dcHybridNoTrie.performDisposableCheck "a.b.com").isMatch = true ∧
      (dcHybridNoTrie.simpleCheckDisposableDomain "a.b.com").isMatch = false := by
  decide

/-- C10 amended: the two checker implementations agree on `isMatch`,
`matchType` and `confidence` (the `source` label differs) for the
`hash` and `trie` strategies under every configuration; for `bloom` and
`hybrid` they diverge, as the counterexample shows. -/
theorem checkers_agree_hash_trie (dc : DomainChecker) (domain : String)
    (h : dc.indexingStrategy = Strategy.hash ∨ dc.indexingStrategy = Strategy.trie) :
    (dc.performDisposableCheck domain).isMatch
        = (dc.simpleCheckDisposableDomain domain).isMatch ∧
    (dc.performDisposableCheck domain).matchType
        = (dc.simpleCheckDisposableDomain domain).matchType ∧
    (dc.performDisposableCheck domain).confidence
        = (dc.simpleCheckDisposableDomain domain).confidence := by
  unfold DomainChecker.performDisposableCheck DomainChecker.simpleCheckDisposableDomain
  by_cases hb : dc.bloomRejects domain
  · simp [hb]
  by_cases hd : domain ∈ dc.disposableDomainsSet
  · simp [hb, hd]
  rcases h with h | h <;> rw [h] <;> rw [tailJoins_eq_parentsAfterDots]
  · -- hash strategy: both sides reduce to the parent-domain walk
    by_cases hs : dc.enableSubdomainChecking
    · by_cases ha : ∃ x ∈ parentsAfterDots domain.data, String.mk x ∈ dc.disposableDomainsSet
      · simp [hb, hd, hs, ha, DomainChecker.checkWithHash]
      · simp [hb, hd, hs, ha, DomainChecker.checkWithHash, noMatchResult]
    · simp [hb, hd, hs, DomainChecker.checkWithHash, noMatchResult]
  · -- trie strategy: both sides reduce to the same trie search
    cases ht : dc.domainTrie with
    | none => simp [hb, hd, ht, DomainChecker.checkWithTrie, noMatchResult]
    | some t =>
      by_cases hs : dc.enableSubdomainChecking
      · by_cases hf : (TrieIndex.search t domain).found = true
            ∧ (TrieIndex.search t domain).source = "disposable"
        · simp [hb, hd, ht, hs, hf, DomainChecker.checkWithTrie]
        · simp [hb, hd, ht, hs, hf, DomainChecker.checkWithTrie, noMatchResult]
      · simp [hb, hd, ht, hs, DomainChecker.checkWithTrie, noMatchResult]

theorem checkers_agree_hash_trie_witness :
    (dcHashPair.performDisposableCheck "a.b.com").isMatch
        = (dcHashPair.simpleCheckDisposableDomain "a.b.com").isMatch ∧
    (dcHashPair.performDisposableCheck "a.b.com").matchType
        = (dcHashPair.simpleCheckDisposableDomain "a.b.com").matchType ∧
    (dcHashPair.performDisposableCheck "a.b.com").confidence
        = (dcHashPair.simpleCheckDisposableDomain "a.b.com").confidence :=
  checkers_agree_hash_trie dcHashPair "a.b.com" (Or.inl rfl)

/-! ### Bloom merge (C9) -/

theorem length_mergeBytes (as bs : List Nat) : (mergeBytes as bs).length = as.length := by
  induction as generalizing bs with
  | nil => rfl
  | cons a as ih => simp [mergeBytes, ih]

theorem getD_mergeBytes (as bs : List Nat) (hlen : bs.length = as.length) (n : Nat) :
    (mergeBytes as bs).getD n 0 = (as.getD n 0 ||| bs.getD n 0) := by
  induction as generalizing bs n with
  | nil =>
    cases bs with
    | nil => simp [mergeBytes]
    | cons b bs => simp at hlen
  | cons a as ih =>
    cases bs with
    | nil => simp at hlen
    | cons b bs =>
      cases n with
      | zero => simp [mergeBytes]
      | succ n =>
        have := ih bs (by simpa using hlen) n
        simpa [mergeBytes] using this

/-- C9: `merge` on two filters with identical `size` and
`numHashFunctions` (hence identical byte counts, as the constructor
derives `byteSize` from `size`) succeeds and ORs the bit arrays —
every bit of the result is the disjunction of the operands' bits —
while mismatched parameters fail with the configuration error. -/
theorem bloom_merge_spec (a b : BloomFilter) :
    (a.size = b.size → a.numHashFunctions = b.numHashFunctions →
      a.bitArray.length = b.bitArray.length →
      ∃ m, a.merge b = Except.ok m ∧ m.size = a.size ∧
        m.numHashFunctions = a.numHashFunctions ∧
        m.bitArray.length = a.bitArray.length ∧
        ∀ i, getBit m.bitArray i = (getBit a.bitArray i || getBit b.bitArray i)) ∧
    (a.size ≠ b.size ∨ a.numHashFunctions ≠ b.numHashFunctions →
      a.merge b = Except.error "Cannot merge bloom filters with different parameters") := by
  constructor
  · intro h1 h2 h3
    refine ⟨{ a with bitArray := mergeBytes a.bitArray b.bitArray }, ?_, rfl, rfl, ?_, ?_⟩
    · unfold BloomFilter.merge
      rw [if_neg]
      push_neg
      exact ⟨h1, h2⟩
    · exact length_mergeBytes a.bitArray b.bitArray
    · intro i
      show getBit (mergeBytes a.bitArray b.bitArray) i = _
      rw [getBit_eq_testBit, getBit_eq_testBit, getBit_eq_testBit,
        getD_mergeBytes _ _ h3.symm, Nat.testBit_lor]
  · intro h
    unfold BloomFilter.merge
    rw [if_pos h]

theorem bloom_merge_spec_witness :
    ∃ m, bfM1.merge bfM2 = Except.ok m ∧ m.size = bfM1.size ∧
      m.numHashFunctions = bfM1.numHashFunctions ∧
      m.bitArray.length = bfM1.bitArray.length ∧
      ∀ i, getBit m.bitArray i = (getBit bfM1.bitArray i || getBit bfM2.bitArray i) :=
  (bloom_merge_spec bfM1 bfM2).1 rfl rfl rfl

/-- C6: with `maxSize = 2`, setting keys `a`, `b`, `c` in order with no
intervening reads evicts `a` (the first key in iteration order, which
with no reads is the least recently used); afterwards `has "a"` is
`false` while `has "b"` and `has "c"` are `true`. -/
theorem lru_eviction_at_capacity :
    ((((mcTwo.set 0 "a" dummyResult none).set 1 "b" dummyResult none).set 2 "c"
        dummyResult none).has "a") = false ∧
    ((((mcTwo.set 0 "a" dummyResult none).set 1 "b" dummyResult none).set 2 "c"
        dummyResult none).has "b") = true ∧
    ((((mcTwo.set 0 "a" dummyResult none).set 1 "b" dummyResult none).set 2 "c"
        dummyResult none).has "c") = true := by
  decide

/-! ### Request coalescing (C7) -/

theorem lookupKey_cons_self (m : List (String × Nat)) (k : String) (v : Nat) :
    lookupKey ((k, v) :: m) k = some v := by
  simp [lookupKey]

theorem runStarts_pending (s : PendingState) (k : String) (pid : Nat) (n : Nat)
    (h : lookupKey s.pending k = some pid) :
    runStarts s k n = (s, List.replicate n pid) := by
  induction n with
  | zero => rfl
  | succ n ih =>
    have hstep : getStart s k = (s, pid) := by
      unfold getStart
      rw [h]
    simp [runStarts, hstep, ih, List.replicate_succ]

/-- C7: from a state with no in-flight computation for key `k`, issuing
`n ≥ 1` concurrent `get` calls for `k` (no completion in between)
triggers exactly one new backing-store computation for `k`, and all `n`
callers await the same promise (hence resolve to equal results). -/
theorem cache_get_coalescing (s : PendingState) (k : String) (n : Nat)
    (h : lookupKey s.pending k = none) (hn : 0 < n) :
    countKey (runStarts s k n).1.backingCalls k = countKey s.backingCalls k + 1 ∧
    (runStarts s k n).2 = List.replicate n s.nextId := by
  obtain ⟨m, rfl⟩ : ∃ m, n = m + 1 := ⟨n - 1, by omega⟩
  have hstep : getStart s k =
      ({ pending := (k, s.nextId) :: s.pending
         nextId := s.nextId + 1
         backingCalls := (k, s.nextId) :: s.backingCalls }, s.nextId) := by
    unfold getStart
    rw [h]
  have hrun : runStarts
      { pending := (k, s.nextId) :: s.pending
        nextId := s.nextId + 1
        backingCalls := (k, s.nextId) :: s.backingCalls } k m
      = ({ pending := (k, s.nextId) :: s.pending
           nextId := s.nextId + 1
           backingCalls := (k, s.nextId) :: s.backingCalls }, List.replicate m s.nextId) :=
    runStarts_pending _ k s.nextId m (lookupKey_cons_self _ _ _)
  constructor
  · simp [runStarts, hstep, hrun, countKey]
  · simp [runStarts, hstep, hrun, List.replicate_succ]

theorem cache_get_coalescing_witness :
    countKey (runStarts psEmpty "user@x.com" 3).1.backingCalls "user@x.com"
        = countKey psEmpty.backingCalls "user@x.com" + 1 ∧
    (runStarts psEmpty "user@x.com" 3).2 = List.replicate 3 psEmpty.nextId :=
  cache_get_coalescing psEmpty "user@x.com" 3 rfl (by decide)

/-! ### Allow-list precedence and malformed input (C4, C5) -/

/-- C4: for every configuration, pattern analyzer and MX oracle, an
email that passes format validation and whose parsed domain is in both
the allow set and the disposable set yields `isAllowed = true`,
`isDisposable = false` and confidence 100: the allow-list check returns
before the block-list and disposable checks run. -/
theorem allowlist_precedence (cfg : FacadeConfig)
    (analyze : String → String → String → Nat × List String) (hasMx : String → Bool)
    (email : String)
    (hv : (validateEmailFormat email).1 = true)
    (ha : (parseEmail email).2 ∈ cfg.checker.allowlistSet)
    (_hd : (parseEmail email).2 ∈ cfg.checker.disposableDomainsSet) :
    (performEmailCheck cfg analyze hasMx email).isAllowed = true ∧
    (performEmailCheck cfg analyze hasMx email).isDisposable = false ∧
    (performEmailCheck cfg analyze hasMx email).confidence = 100 := by
  have hal : cfg.checker.checkAllowlist (parseEmail email).2 = true := by
    unfold DomainChecker.checkAllowlist
    simp [ha]
  unfold performEmailCheck
  simp [hv, hal]

theorem allowlist_precedence_witness :
    (performEmailCheck cfgAllowPair (fun _ _ _ => (0, [])) (fun _ => true)
        "user@both.com").isAllowed = true ∧
    (performEmailCheck cfgAllowPair (fun _ _ _ => (0, [])) (fun _ => true)
        "user@both.com").isDisposable = false ∧
    (performEmailCheck cfgAllowPair (fun _ _ _ => (0, [])) (fun _ => true)
        "user@both.com").confidence = 100 :=
  allowlist_precedence cfgAllowPair (fun _ _ _ => (0, [])) (fun _ => true) "user@both.com"
    (by decide) (by decide) (by decide)

theorem validateEmailFormat_spec (email : String) :
    (validateEmailFormat email).1 = true ∨ (validateEmailFormat email).2 ≠ [] := by
  unfold validateEmailFormat
  split_ifs <;> try simp
  split_ifs <;> simp

theorem validateEmailFormat_false_errors (email : String)
    (h : (validateEmailFormat email).1 = false) : (validateEmailFormat email).2 ≠ [] := by
  rcases validateEmailFormat_spec email with h1 | h1
  · rw [h] at h1
    exact absurd h1 (by simp)
  · exact h1

/-- C5: for every input failing email format validation,
`performEmailCheck` returns (rather than raising — the model is a total
function) a result with all classification flags `false`, confidence 0
and a non-empty `errors` list. -/
theorem malformed_email_all_false (cfg : FacadeConfig)
    (analyze : String → String → String → Nat × List String) (hasMx : String → Bool)
    (email : String)
    (hv : (validateEmailFormat email).1 = false) :
    (performEmailCheck cfg analyze hasMx email).isValid = false ∧
    (performEmailCheck cfg analyze hasMx email).isDisposable = false ∧
    (performEmailCheck cfg analyze hasMx email).isAllowed = false ∧
    (performEmailCheck cfg analyze hasMx email).isBlacklisted = false ∧
    (performEmailCheck cfg analyze hasMx email).confidence = 0 ∧
    (performEmailCheck cfg analyze hasMx email).errors ≠ [] := by
  unfold performEmailCheck
  simp [hv]
  exact validateEmailFormat_false_errors email hv

theorem malformed_email_all_false_witness :
    (performEmailCheck cfgAllowPair (fun _ _ _ => (0, [])) (fun _ => true) "bad").isValid
        = false ∧
    (performEmailCheck cfgAllowPair (fun _ _ _ => (0, [])) (fun _ => true)
        "bad").isDisposable = false ∧
    (performEmailCheck cfgAllowPair (fun _ _ _ => (0, [])) (fun _ => true) "bad").isAllowed
        = false ∧
    (performEmailCheck cfgAllowPair (fun _ _ _ => (0, [])) (fun _ => true)
        "bad").isBlacklisted = false ∧
    (performEmailCheck cfgAllowPair (fun _ _ _ => (0, [])) (fun _ => true) "bad").confidence
        = 0 ∧
    (performEmailCheck cfgAllowPair (fun _ _ _ => (0, [])) (fun _ => true) "bad").errors
        ≠ [] :=
  malformed_email_all_false cfgAllowPair (fun _ _ _ => (0, [])) (fun _ => true) "bad"
    (by decide)
